import Mathlib

/-!
Verification development for the dns-resolver repository (TypeScript).

The source is shallowly embedded: JS `Buffer` values become `List Nat`
(every element a byte < 256), JS strings become Lean `String` (the DNS
names and rdata handled by this program are ASCII; where a universally
quantified statement depends on byte-level fidelity of string encoding,
an ASCII hypothesis is carried), and the asynchronous resolver loop
becomes a fuel-indexed total function in which running out of fuel
models non-termination.  Fallible code returns an explicit result type.
-/

set_option linter.unusedVariables false

namespace DnsResolver

/-! ## Byte-level helpers (Node Buffer operations used by the source) -/

/-- Big-endian bytes of a 16-bit write, as produced by
`buffer.writeUInt16BE(v)`.  Node throws for `v ≥ 2^16`; theorems about
encoding carry in-range hypotheses, so the truncation here is never
exercised outside the declared widths. -/
def write16 (v : Nat) : List Nat := [v / 256 % 256, v % 256]

/-- Big-endian bytes of a 32-bit write (`buffer.writeUInt32BE`). -/
def write32 (v : Nat) : List Nat :=
  [v / 16777216 % 256, v / 65536 % 256, v / 256 % 256, v % 256]

/-- Byte of a buffer at an index (`buffer[i]`); JS yields `undefined`
out of range, which the source never observes on the paths modeled
with this default. -/
def byteAt (buf : List Nat) (i : Nat) : Nat := buf[i]?.getD 0

/-- Big-endian 16-bit read (`buffer.readUInt16BE(i)`).  Callers that
could read past the end model the Node `ERR_OUT_OF_RANGE` throw with an
explicit bounds check before using this value. -/
def read16 (buf : List Nat) (i : Nat) : Nat := byteAt buf i * 256 + byteAt buf (i + 1)

/-- Big-endian 32-bit read (`buffer.readUInt32BE(i)`). -/
def read32 (buf : List Nat) (i : Nat) : Nat :=
  byteAt buf i * 16777216 + byteAt buf (i + 1) * 65536 +
    byteAt buf (i + 2) * 256 + byteAt buf (i + 3)

/-! ## String helpers (JS string operations used by the source) -/

/-- JS `String.prototype.split` with a single-character separator.
For example splitting the empty string yields one empty piece, exactly
as in JS. -/
def charSplit (sep : Char) : List Char → List (List Char)
  | [] => [[]]
  | c :: cs =>
    let rest := charSplit sep cs
    if c = sep then [] :: rest
    else
      match rest with
      | r :: rs => (c :: r) :: rs
      | [] => [[c]]

/-- Join of pieces with a separator, as in JS `Array.prototype.join`. -/
def joinChars (sep : Char) : List (List Char) → List Char
  | [] => []
  | [l] => l
  | l :: ls => l ++ sep :: joinChars sep ls

/-- Splits a string at every occurrence of a single-character
separator (JS `s.split(sep)`). -/
def jsSplit (sep : Char) (s : String) : List String :=
  (charSplit sep s.data).map String.mk

/-- Tests whether the first list is an initial segment of the second. -/
def leadsWith : List Char → List Char → Bool
  | [], _ => true
  | _ :: _, [] => false
  | a :: as, b :: bs => a = b && leadsWith as bs

/-- Index of the first occurrence of `needle` inside `hay`
(JS `hay.indexOf(needle)`); `none` models the JS result `-1`. -/
def jsIndexOfAux (needle : List Char) : List Char → Nat → Option Nat
  | [], i => if needle = [] then some i else none
  | c :: cs, i =>
    if leadsWith needle (c :: cs) then some i else jsIndexOfAux needle cs (i + 1)

/-- JS `hay.indexOf(needle)` with `none` for a missing occurrence. -/
def jsIndexOf (hay needle : String) : Option Nat := jsIndexOfAux needle.data hay.data 0

/-- Leading decimal-digit run of a string interpreted as a number; JS
`parseInt(s)` with `none` modeling `NaN`. -/
def jsParseDec (s : String) : Option Nat :=
  let digits := s.data.takeWhile (fun c => 48 ≤ c.toNat && c.toNat ≤ 57)
  if digits = [] then none
  else some (digits.foldl (fun acc c => acc * 10 + (c.toNat - 48)) 0)

/-- Hexadecimal analogue of `jsParseDec`, for JS `parseInt(s, 16)`. -/
def jsParseHex (s : String) : Option Nat :=
  let hexVal : Char → Option Nat := fun c =>
    if 48 ≤ c.toNat && c.toNat ≤ 57 then some (c.toNat - 48)
    else if 97 ≤ c.toNat && c.toNat ≤ 102 then some (c.toNat - 87)
    else if 65 ≤ c.toNat && c.toNat ≤ 70 then some (c.toNat - 55)
    else none
  let digits := s.data.takeWhile (fun c => (hexVal c).isSome)
  if digits = [] then none
  else some (digits.foldl (fun acc c => acc * 16 + (hexVal c).getD 0) 0)

/-! ## Data model (src/app/types.ts) -/

/- Numeric values of the `RecordType` enum. -/
namespace RecordType

def A : Nat := 1
def NS : Nat := 2
def CNAME : Nat := 5
def SOA : Nat := 6
def TXT : Nat := 16
def AAAA : Nat := 28

end RecordType

/- Numeric values of the `ResponseCode` enum. -/
namespace ResponseCode

def NO_ERROR : Nat := 0
def FORMAT_ERROR : Nat := 1
def SERVER_FAILURE : Nat := 2
def NAME_ERROR : Nat := 3

end ResponseCode

/-- DNS header record (`DNSHeaderType`).  All fields are numbers in the
source; network order and field widths are imposed by the codec. -/
structure DNSHeaderT where
  id : Nat
  qr : Nat
  opcode : Nat
  aa : Nat
  tc : Nat
  rd : Nat
  ra : Nat
  z : Nat
  rcode : Nat
  qdcount : Nat
  ancount : Nat
  nscount : Nat
  arcount : Nat
deriving DecidableEq, Repr

/-- DNS question record (`DNSQuestionType`); `cls` renders the source
field `class`, which is a reserved word in Lean. -/
structure DNSQuestionT where
  name : String
  type : Nat
  cls : Nat
deriving DecidableEq, Repr

/-- DNS resource record (`DNSAnswerType`).  The source type `RDataType`
is `string` for every record type this development reasons about; the
object-valued SOA rdata of the current revision is outside the modeled
fragment and no claim depends on it. -/
structure DNSAnswerT where
  name : String
  type : Nat
  cls : Nat
  ttl : Nat
  rdlength : Nat
  rdata : String
deriving DecidableEq, Repr

/-- DNS message (`DNSPacketType`). -/
structure DNSPacketT where
  header : DNSHeaderT
  questions : List DNSQuestionT
  answers : List DNSAnswerT
  authorities : List DNSAnswerT
  additionals : List DNSAnswerT
deriving DecidableEq, Repr

/-- Result of a decoding routine: either a value or the thrown
format/range error (`Error` in the source). -/
inductive Decoded (α : Type) where
  | ok (val : α)
  | fmtError
deriving DecidableEq, Repr

/-! ## Header codec (src/app/dns-packet/DNSHeader.ts) -/

/-- Flag word assembled by `DNSHeader.encode`:
`qr<<15 | opcode<<11 | aa<<10 | tc<<9 | rd<<8 | ra<<7 | z<<4 | rcode`.
The source ORs the shifted fields; for fields within their declared
widths (one bit for qr/aa/tc/rd/ra, four bits for opcode/rcode, three
bits for z) the ranges are disjoint and the OR equals this sum.  All
header theorems carry those width hypotheses. -/
def headerFlags (h : DNSHeaderT) : Nat :=
  h.qr * 32768 + h.opcode * 2048 + h.aa * 1024 + h.tc * 512 +
    h.rd * 256 + h.ra * 128 + h.z * 16 + h.rcode

/-- Encoding of the 12-byte header (`DNSHeader.encode`). -/
def encodeHeader (h : DNSHeaderT) : List Nat :=
  write16 h.id ++ write16 (headerFlags h) ++ write16 h.qdcount ++
    write16 h.ancount ++ write16 h.nscount ++ write16 h.arcount

/-- Decoding of the 12-byte header (`DNSHeader.decode`).  Field
extraction mirrors the source shifts and masks; note that `z` is read
with a four-bit mask `(flags >> 4) & 15` although it was written at a
three-bit position, so the decoded `z` also contains the `ra` bit. -/
def decodeHeader (buf : List Nat) (off : Nat) : DNSHeaderT × Nat :=
  let f := read16 buf (off + 2)
  ({ id := read16 buf off
     qr := f / 32768 % 2
     opcode := f / 2048 % 16
     aa := f / 1024 % 2
     tc := f / 512 % 2
     rd := f / 256 % 2
     ra := f / 128 % 2
     z := f / 16 % 16
     rcode := f % 16
     qdcount := read16 buf (off + 4)
     ancount := read16 buf (off + 6)
     nscount := read16 buf (off + 8)
     arcount := read16 buf (off + 10) }, off + 12)

/-! ## Name codec (src/app/utils.ts: encodeDomainName / decodeDomainName) -/

/-- Compression table (`ENCODED_LABELS`): a JS object mapping an
already encoded name to its byte offset.  A `for..in` loop over such an
object visits string keys in insertion order, so the object is modeled
as an association list in insertion order with unique keys. -/
abbrev LabelTable := List (String × Nat)

/-- Value bound to a key in the table (`encodedLabels[name]`). -/
def tableLookup (t : LabelTable) (k : String) : Option Nat :=
  (t.find? (fun e => e.1 = k)).map (fun e => e.2)

/-- Assignment `encodedLabels[name] = off`: in-place update of an
existing key (keeping its position) or append of a new one. -/
def tableStore (t : LabelTable) (k : String) (v : Nat) : LabelTable :=
  if (t.find? (fun e => e.1 = k)).isSome then
    t.map (fun e => if e.1 = k then (k, v) else e)
  else t ++ [(k, v)]

/-- Two-octet pointer produced by `encodePointer`: the low 14 bits of
the offset prefixed with bits `11`. -/
def encodePointerBytes (off : Nat) : List Nat := write16 (49152 + off % 16384)

/-- Test from `isPointer`: the first two bits of the byte are `11`,
which for a byte value means it is at least `0xC0`. -/
def isPointerAt (buf : List Nat) (off : Nat) : Bool := 192 ≤ byteAt buf off

/-- Offset recovered by `decodePointer` from the two pointer octets:
the 16-bit big-endian value without its top two bits. -/
def decodePointerVal (b0 b1 : Nat) : Nat := (b0 * 256 + b1) % 16384

/-- Scan of `for (let label in encodedLabels)` inside
`encodeDomainName`: the first key (in insertion order) that occurs as a
substring of the name, via `domainName.indexOf(label)`, together with
the occurrence index and the stored offset. -/
def findCompression (name : String) : LabelTable → Option (Nat × Nat)
  | [] => none
  | (k, off) :: rest =>
    match jsIndexOf name k with
    | some i => some (i, off)
    | none => findCompression name rest

/-- Wire bytes of a label sequence: for each label a length byte
followed by the label bytes, as built by
`labels.flatMap(label => [label.length, ...Buffer.from(label)])`.
`Buffer.from` coerces each array element with `& 255`, hence the
`% 256` on the length; label characters are taken as their code points
(exact for the ASCII names this program handles). -/
def labelsToBytes (labels : List String) : List Nat :=
  labels.flatMap (fun l => l.length % 256 :: l.data.map Char.toNat)

/-- Label list obtained from a name inside `encodeDomainName`:
`split(".")` followed by dropping empty labels. -/
def splitLabels (name : String) : List String :=
  (jsSplit '.' name).filter (fun l => l ≠ "")

/-- Table update performed after emitting a label sequence:
`if (encodedLabels && nextOffset) encodedLabels[domainName] = nextOffset`
(both JS truthiness tests, so a zero offset stores nothing). -/
def storeEncoded (t? : Option LabelTable) (off? : Option Nat) (k : String) :
    Option LabelTable :=
  match t?, off? with
  | some t, some off => if off = 0 then some t else some (tableStore t k off)
  | some t, none => some t
  | none, _ => none

/-- Compression-aware `encodeDomainName(domainName, encodedLabels,
nextOffset)` from src/app/utils.ts.  Returns the emitted bytes together
with the (possibly updated) compression table.  Control flow follows
the source: whole-name hit or first substring hit of a table key gives
a pointer, a hit at a positive index first emits the labels of the
characters before the hit, and otherwise all labels are emitted
followed by a zero octet. -/
def encodeDomainName (domainName : String) (encodedLabels : Option LabelTable)
    (nextOffset : Option Nat) : List Nat × Option LabelTable :=
  let comp : Option (Nat × Nat) :=
    match encodedLabels with
    | none => none
    | some t =>
      match tableLookup t domainName with
      | some off => some (0, off)
      | none => findCompression domainName t
  match comp with
  | some (0, off) => (encodePointerBytes off, encodedLabels)
  | some (i + 1, off) =>
    let remaining : String := String.mk (domainName.data.take (i + 1))
    let bytes := labelsToBytes (splitLabels remaining)
    (bytes ++ encodePointerBytes off, storeEncoded encodedLabels nextOffset domainName)
  | none =>
    let bytes := labelsToBytes (splitLabels domainName)
    (bytes ++ [0], storeEncoded encodedLabels nextOffset domainName)

/-- Result of `decodeDomainName`: a returned name with the offset just
past its wire form, a thrown range error, or exhaustion of the
recursion bound.  The last constructor models a computation that is
still running after the given number of steps; the source function has
no bound of its own, so an input on which every bound is exhausted is
one on which the source recursion never returns (in Node it aborts with
a stack overflow). -/
inductive DomainNameRes where
  | ok (domainName : String) (nextOffset : Nat)
  | rangeErr
  | out
deriving DecidableEq, Repr

/-- Fuel-indexed body of `decodeDomainName(buffer, offset)`.  One unit
of fuel is spent per loop iteration and per pointer recursion.  The
accumulator holds the label pieces collected so far (`labels` in the
source); a pointer pushes the whole recursively decoded name as one
piece and stops the loop, and the result joins the pieces with dots. -/
def decodeDomainNameGo (buf : List Nat) : Nat → Nat → List (List Char) → DomainNameRes
  | 0, _, _ => .out
  | fuel + 1, startIndex, labels =>
    if startIndex < buf.length then
      if isPointerAt buf startIndex then
        -- decodePointer reads two octets; with only one left Node throws
        if startIndex + 1 < buf.length then
          match decodeDomainNameGo buf fuel
              (decodePointerVal (byteAt buf startIndex) (byteAt buf (startIndex + 1))) [] with
          | .ok dn _ => .ok (String.mk (joinChars '.' (labels ++ [dn.data]))) (startIndex + 2)
          | .rangeErr => .rangeErr
          | .out => .out
        else .rangeErr
      else
        let labelLength := byteAt buf startIndex
        if labelLength = 0 then
          .ok (String.mk (joinChars '.' labels)) (startIndex + 1)
        else
          let piece := ((buf.drop (startIndex + 1)).take labelLength).map Char.ofNat
          decodeDomainNameGo buf fuel (startIndex + labelLength + 1) (labels ++ [piece])
    else .ok (String.mk (joinChars '.' labels)) startIndex

/-- Bounded model of `decodeDomainName(buffer, offset)`. -/
def decodeDomainNameF (buf : List Nat) (fuel : Nat) (offset : Nat) : DomainNameRes :=
  decodeDomainNameGo buf fuel offset []

/-! ## Record data codec (src/app/dns/rData.ts) -/

/-- Byte list rendered as the join of decimal byte strings with a
separator, as in `rDataBuffer.map(byte => byte).join(sep)`. -/
def joinByteStrs (sep : Char) (bytes : List Nat) : String :=
  String.mk (joinChars sep (bytes.map (fun b => (Nat.repr b).data)))

/-- Decoding dispatch `decodeRecordData` through `typeMap`.  A and AAAA
join the rdata bytes with a dot and a colon respectively; NS and CNAME
decode a (possibly compressed) domain name from the full message; TXT
turns the bytes into characters.  Other types return the literal
placeholder of the `typeMap` default; the object-valued SOA codec of
the current revision is outside the string-valued rdata model and is
not relied on by any theorem. -/
def decodeRecordDataF (buf : List Nat) (fuel : Nat) (offset : Nat) (ty : Nat)
    (rdlength : Nat) : Decoded String :=
  if ty = RecordType.A then .ok (joinByteStrs '.' ((buf.drop offset).take rdlength))
  else if ty = RecordType.AAAA then .ok (joinByteStrs ':' ((buf.drop offset).take rdlength))
  else if ty = RecordType.NS ∨ ty = RecordType.CNAME then
    match decodeDomainNameF buf fuel offset with
    | .ok dn _ => .ok dn
    | _ => .fmtError
  else if ty = RecordType.TXT then
    .ok (String.mk (((buf.drop offset).take rdlength).map Char.ofNat))
  else .ok "Method not implemented"

/-- Encoding dispatch `encodeRecordData` through `typeMap`.  A parses
dotted decimal, AAAA colon-separated hex; `Buffer.from` coerces each
value with `& 255` and turns `NaN` into `0`.  NS and CNAME encode a
domain name against the enclosing compression table with the rdata
offset; TXT emits character codes.  Other types emit the single zero
byte of the `typeMap` default (see the note on SOA above). -/
def encodeRecordDataF (tbl : Option LabelTable) (data : String) (ty : Nat)
    (rdOffset : Nat) : List Nat × Option LabelTable :=
  if ty = RecordType.A then
    ((jsSplit '.' data).map (fun p => (jsParseDec p).getD 0 % 256), tbl)
  else if ty = RecordType.AAAA then
    ((jsSplit ':' data).map (fun p => (jsParseHex p).getD 0 % 256), tbl)
  else if ty = RecordType.NS ∨ ty = RecordType.CNAME then
    encodeDomainName data tbl (some rdOffset)
  else if ty = RecordType.TXT then
    (data.data.map (fun c => c.toNat % 256), tbl)
  else ([0], tbl)

/-! ## Question and record codec (src/app/dns/dnsMessageHeader.ts
DNSQuestion, src/app/dns/DNSAnswer.ts via part_007) -/

/-- Encoding of one question (`DNSQuestion.encode`): the name against
the compression table at the current offset, then type and class. -/
def encodeQuestion (q : DNSQuestionT) (tbl : Option LabelTable)
    (nextOffset : Option Nat) : List Nat × Option LabelTable :=
  let (nameBuf, tbl1) := encodeDomainName q.name tbl nextOffset
  (nameBuf ++ write16 q.type ++ write16 q.cls, tbl1)

/-- Decoding of one question (`DNSQuestion.decode`): the name, then
two 16-bit reads, which throw when they would cross the buffer end.
Exhaustion of the name-decoding bound corresponds to the stack
overflow a pointer cycle provokes in Node, hence also an error. -/
def decodeQuestion (buf : List Nat) (fuel : Nat) (offset : Nat) :
    Decoded (DNSQuestionT × Nat) :=
  match decodeDomainNameF buf fuel offset with
  | .ok nm next =>
    if next + 4 ≤ buf.length then
      .ok ({ name := nm, type := read16 buf next, cls := read16 buf (next + 2) }, next + 4)
    else .fmtError
  | _ => .fmtError

/-- Encoding of one resource record (`DNSAnswer.encode`): name, type,
class, ttl, then the rdata length recomputed from the freshly encoded
rdata (the source overwrites a stale `rdlength`), then the rdata.  The
rdata offset reproduces the source conditional
`this.nextOffset ? this.nextOffset + nameBuffer.length + 10 : nameBuffer.length + 10`. -/
def encodeAnswer (a : DNSAnswerT) (tbl : Option LabelTable)
    (nextOffset : Option Nat) : List Nat × Option LabelTable :=
  let (nameBuf, tbl1) := encodeDomainName a.name tbl nextOffset
  let rdOffset :=
    match nextOffset with
    | some n => if n = 0 then nameBuf.length + 10 else n + nameBuf.length + 10
    | none => nameBuf.length + 10
  let (rdBuf, tbl2) := encodeRecordDataF tbl1 a.rdata a.type rdOffset
  (nameBuf ++ write16 a.type ++ write16 a.cls ++ write32 a.ttl ++
    write16 rdBuf.length ++ rdBuf, tbl2)

/-- Decoding of one resource record (`DNSAnswer.decode`). -/
def decodeAnswer (buf : List Nat) (fuel : Nat) (offset : Nat) :
    Decoded (DNSAnswerT × Nat) :=
  match decodeDomainNameF buf fuel offset with
  | .ok nm next =>
    if next + 10 ≤ buf.length then
      let ty := read16 buf next
      let rdlength := read16 buf (next + 8)
      match decodeRecordDataF buf fuel (next + 10) ty rdlength with
      | .ok rd =>
        .ok ({ name := nm, type := ty, cls := read16 buf (next + 2),
               ttl := read32 buf (next + 4), rdlength := rdlength, rdata := rd },
             next + 10 + rdlength)
      | .fmtError => .fmtError
    else .fmtError
  | _ => .fmtError

/-- Loop of `decodeRecords(buffer, recordOffset, recordCount)`:
decode while records remain to be read and the cursor is inside the
buffer; running off the end just stops the loop. -/
def decodeRecordsF (buf : List Nat) (fuel : Nat) :
    Nat → Nat → Decoded (List DNSAnswerT × Nat)
  | 0, offset => .ok ([], offset)
  | count + 1, offset =>
    if offset < buf.length then
      match decodeAnswer buf fuel offset with
      | .ok (rec, next) =>
        match decodeRecordsF buf fuel count next with
        | .ok (recs, fin) => .ok (rec :: recs, fin)
        | .fmtError => .fmtError
      | .fmtError => .fmtError
    else .ok ([], offset)

/-- Loop of `encodeRecords(records, nextOffset)`: each record is
encoded at the running offset against the shared compression table. -/
def encodeRecordsF : List DNSAnswerT → Option LabelTable → Nat →
    List Nat × Option LabelTable × Nat
  | [], tbl, offset => ([], tbl, offset)
  | r :: rest, tbl, offset =>
    let (b, tbl1) := encodeAnswer r tbl (some offset)
    let (bs, tbl2, off2) := encodeRecordsF rest tbl1 (offset + b.length)
    (b ++ bs, tbl2, off2)

/-! ## Message codec (src/app/dns-packet/DNSPacket.ts, first revision
block: the compression-aware encoder) -/

/-- Question-section encoding loop of `DNSPacket.encode`. -/
def encodeQuestionsF : List DNSQuestionT → Option LabelTable → Nat →
    List Nat × Option LabelTable × Nat
  | [], tbl, offset => ([], tbl, offset)
  | q :: rest, tbl, offset =>
    let (b, tbl1) := encodeQuestion q tbl (some offset)
    let (bs, tbl2, off2) := encodeQuestionsF rest tbl1 (offset + b.length)
    (b ++ bs, tbl2, off2)

/-- Whole-message encoding (`DNSPacket.encode` via `encodeRaw`): the
12-byte header, then questions, answers, authorities and additionals
in order, all sharing one compression table that starts empty.  Counts
are emitted exactly as found in the header (the source does not rewrite
them). -/
def encodePacket (p : DNSPacketT) : List Nat :=
  let (qb, t1, qoff) := encodeQuestionsF p.questions (some []) 12
  let (ab, t2, aoff) := encodeRecordsF p.answers t1 qoff
  let (ub, t3, uoff) := encodeRecordsF p.authorities t2 aoff
  let (db, _, _) := encodeRecordsF p.additionals t3 uoff
  encodeHeader p.header ++ qb ++ ab ++ ub ++ db

/-- Question-section decoding loop of `DNSPacket.decode` (while
questions remain and the cursor is inside the buffer). -/
def decodeQuestionsF (buf : List Nat) (fuel : Nat) :
    Nat → Nat → Decoded (List DNSQuestionT × Nat)
  | 0, offset => .ok ([], offset)
  | count + 1, offset =>
    if offset < buf.length then
      match decodeQuestion buf fuel offset with
      | .ok (q, next) =>
        match decodeQuestionsF buf fuel count next with
        | .ok (qs, fin) => .ok (q :: qs, fin)
        | .fmtError => .fmtError
      | .fmtError => .fmtError
    else .ok ([], offset)

/-- Whole-message decoding (`DNSPacket.decode`): reject buffers
shorter than 12 bytes, decode the header, reject `qdcount < 1`, then
decode the question and record sections using the counts from the
header.  The internal name-decoding bound is quadratic in the buffer
length, which every terminating pointer chase respects (a chain of
pointer targets that revisits an offset never returns, and each level
walks at most the buffer once), so the bound is exhausted exactly on
inputs where Node aborts with a stack overflow. -/
def decodePacketF (buf : List Nat) : Decoded DNSPacketT :=
  if buf.length < 12 then .fmtError
  else
    let (h, hOff) := decodeHeader buf 0
    if h.qdcount < 1 then .fmtError
    else
      let fuel := (buf.length + 2) * (buf.length + 2)
      match decodeQuestionsF buf fuel h.qdcount hOff with
      | .ok (qs, qOff) =>
        match decodeRecordsF buf fuel h.ancount qOff with
        | .ok (ans, aOff) =>
          match decodeRecordsF buf fuel h.nscount aOff with
          | .ok (auth, uOff) =>
            match decodeRecordsF buf fuel h.arcount uOff with
            | .ok (add, _) =>
              .ok { header := h, questions := qs, answers := ans,
                    authorities := auth, additionals := add }
            | .fmtError => .fmtError
          | .fmtError => .fmtError
        | .fmtError => .fmtError
      | .fmtError => .fmtError

/-! ## UDP transport (src/app/dns/forward-resolver.ts, part_006) -/

/-- Message handler of `forwardResolver(queryPacket, forwardPort,
forwardHost)`: when a datagram `msg` arrives, the response is
`DNSPacket.decode(msg).toObject()`, resolved to the caller; a decode
failure rejects.  The handler never consults `queryPacket` again — in
particular the response id is not compared with the request id. -/
def forwardResolverOnMessage (queryPacket : List Nat) (msg : List Nat) :
    Decoded DNSPacketT :=
  decodePacketF msg

/-! ## Answer cache (src/app/cache/dns-cache.ts) -/

/-- Entry of the backing key-value store: a key, the stored answers
(the JSON round trip of these records is the identity, so the value is
kept structured), and the absolute expiry instant. -/
structure CacheEntry where
  key : String
  value : List DNSAnswerT
  expireAt : Nat
deriving DecidableEq, Repr

/-- State of the backing store. -/
abbrev RedisState := List CacheEntry

/-- Modelled from the spec: the backing store itself is the external
Redis client (src/app/redis.ts only constructs it); per spec section 6
it is a key-value store whose `get(key)` returns the value while the
entry is unexpired. -/
def redisGet (s : RedisState) (now : Nat) (k : String) : Option (List DNSAnswerT) :=
  match s.find? (fun e => e.key = k) with
  | some e => if now < e.expireAt then some e.value else none
  | none => none

/-- Modelled from the spec: `set(key, value, ttl_seconds, if_absent)`
of the external store — the Redis `SET` with `NX` (only when no
unexpired entry exists) and `EX ttl` (expire `ttl` seconds after the
write); the `NX` failure result is `null`, success is the string OK. -/
def redisSetNxEx (s : RedisState) (now : Nat) (k : String)
    (v : List DNSAnswerT) (ttl : Nat) : RedisState × Option String :=
  match s.find? (fun e => e.key = k) with
  | some e =>
    if now < e.expireAt then (s, none)
    else (s.map (fun e' => if e'.key = k then ⟨k, v, now + ttl⟩ else e'), some "OK")
  | none => (s ++ [⟨k, v, now + ttl⟩], some "OK")

/-- Cache key built by both `DNSCache.set` and `DNSCache.get`:
the template literal with the question name exactly as given. -/
def cacheKey (q : DNSQuestionT) : String :=
  "domain:" ++ q.name ++ ":" ++ toString q.type ++ ":" ++ toString q.cls

/-- Model of `DNSCache.set(question, answers)`: an empty answer list
returns `null` without touching the store; otherwise the store is
asked to set the key if absent, to expire after the ttl of the first
answer. -/
def dnsCacheSet (s : RedisState) (now : Nat) (q : DNSQuestionT)
    (answers : List DNSAnswerT) : RedisState × Option String :=
  match answers with
  | [] => (s, none)
  | a :: _ => redisSetNxEx s now (cacheKey q) answers a.ttl

/-- Model of `DNSCache.get(question)`. -/
def dnsCacheGet (s : RedisState) (now : Nat) (q : DNSQuestionT) :
    Option (List DNSAnswerT) :=
  redisGet s now (cacheKey q)

/-! ## Root hints and domain validation -/

/-- Root name server entry (`label` and `ipv4`). -/
structure RootNS where
  label : String
  ipv4 : String
deriving DecidableEq, Repr

/-- Modelled from the spec: the module `root-name-server.ts` is not
among the provided sources; per spec section 3 it is a static read-only
list of the 13 IANA root servers as (label, ipv4) pairs. -/
def rootNameServers : List RootNS :=
  [⟨"a.root-servers.net", "198.41.0.4"⟩,
   ⟨"b.root-servers.net", "199.9.14.201"⟩,
   ⟨"c.root-servers.net", "192.33.4.12"⟩,
   ⟨"d.root-servers.net", "199.7.91.13"⟩,
   ⟨"e.root-servers.net", "192.203.230.10"⟩,
   ⟨"f.root-servers.net", "192.5.5.241"⟩,
   ⟨"g.root-servers.net", "192.112.36.4"⟩,
   ⟨"h.root-servers.net", "198.97.190.53"⟩,
   ⟨"i.root-servers.net", "192.36.148.17"⟩,
   ⟨"j.root-servers.net", "192.58.128.30"⟩,
   ⟨"k.root-servers.net", "193.0.14.129"⟩,
   ⟨"l.root-servers.net", "199.7.83.42"⟩,
   ⟨"m.root-servers.net", "202.12.27.33"⟩]

/-- ASCII letter test. -/
def isAlphaCh (c : Char) : Bool :=
  (65 ≤ c.toNat && c.toNat ≤ 90) || (97 ≤ c.toNat && c.toNat ≤ 122)

/-- ASCII letter-or-digit test. -/
def isAlnumCh (c : Char) : Bool :=
  isAlphaCh c || (48 ≤ c.toNat && c.toNat ≤ 57)

/-- Separator characters admitted by the domain pattern. -/
def isSepCh (c : Char) : Bool := c = '-' || c = '.'

/-- Absence of two adjacent separator characters. -/
def noAdjacentSeps : List Char → Bool
  | [] => true
  | [_] => true
  | a :: b :: rest => !(isSepCh a && isSepCh b) && noAdjacentSeps (b :: rest)

/-- Acceptance of the anchored domain pattern used by `isValidDomain`
(one alphanumeric run, further runs each introduced by a single hyphen
or dot, then a dot and a final run of at least two letters).  Because
every run is nonempty and separators are single characters, a string
matches the pattern exactly when: it starts with an alphanumeric, all
characters are alphanumeric or separators, no two separators are
adjacent, a separator exists, the last separator is a dot, and the
characters after it are at least two letters. -/
def domainRegexAccepts (s : List Char) : Bool :=
  match s with
  | [] => false
  | c0 :: _ =>
    isAlnumCh c0 &&
    s.all (fun c => isAlnumCh c || isSepCh c) &&
    noAdjacentSeps s &&
    (let rev := s.reverse
     let tldRev := rev.takeWhile (fun c => !(isSepCh c))
     match rev.drop tldRev.length with
     | [] => false
     | sepc :: _ => sepc = '.' && tldRev.all isAlphaCh && 2 ≤ tldRev.length)

/-- Model of `isValidDomain(domain)`: nonempty, matches the domain
pattern, and every dot-separated label has at most 63 characters. -/
def isValidDomain (domain : String) : Bool :=
  if domain = "" then false
  else domainRegexAccepts domain.data &&
    ((charSplit '.' domain.data).all (fun l => l.length ≤ 63))

/-! ## Resolution engine (src/app/resolver/recursive-resolver.ts,
part_004 second revision block) -/

/-- Response assembled by the `catch` handler of `recursiveLookup`:
the request header with `qr=1, aa=0, ra=1, rcode=NAME_ERROR`, the
request questions, and empty sections. -/
def catchResponse (req : DNSPacketT) : DNSPacketT :=
  { header := { req.header with
                  aa := 0, ra := 1, qr := 1, rcode := ResponseCode.NAME_ERROR },
    questions := req.questions, answers := [], authorities := [], additionals := [] }

/-- Single-question sub-query issued for a CNAME answer: the target of
the CNAME, type CNAME, class IN, under the request header; the source
also passes the request authorities and additionals through. -/
def cnameSubRequest (req : DNSPacketT) (c : DNSAnswerT) : DNSPacketT :=
  { header := req.header,
    questions := [{ name := c.rdata, type := RecordType.CNAME, cls := 1 }],
    answers := [], authorities := req.authorities, additionals := req.additionals }

/-- Single-question sub-query issued to resolve a glue-less authority
host: its name for type A under the request header. -/
def authoritySubRequest (req : DNSPacketT) (ch : DNSAnswerT) : DNSPacketT :=
  { header := req.header,
    questions := [{ name := ch.name, type := RecordType.A, cls := ch.cls }],
    answers := [], authorities := [], additionals := [] }

/-- Terminal response of the loop when neither answers, additionals
nor a usable authority remain: `NAME_ERROR` carrying the received
authorities. -/
def finalNameError (req : DNSPacketT) (q : DNSQuestionT) (r : DNSPacketT) : DNSPacketT :=
  { header := { req.header with
                  qr := 1, aa := 0, ra := 1, rcode := ResponseCode.NAME_ERROR,
                  nscount := r.authorities.length },
    questions := [q], answers := [], authorities := r.authorities, additionals := [] }

/-- Outcome of the unbounded `for(;;)` loop inside `recursiveLookup`:
a returned packet, a thrown exception (handled by the enclosing
`catch`), or exhaustion of the iteration bound imposed only by the
model — the source loop has no bound, so exhaustion for every bound
means the source loops forever. -/
inductive LoopOut where
  | ret (p : DNSPacketT)
  | threw
  | noFuel
deriving DecidableEq, Repr

/-- Accumulating loop `for (const cnameAnswer of cnameAnswers)` of the
answer branch: each CNAME target is looked up with the given lookup
function (the recursive `recursiveLookup` at the call site) and the
answers of the sub-lookup are appended; a sub-lookup still running
when its bound is exhausted propagates as `none`. -/
def followCnamesF (lk : DNSPacketT → Option DNSPacketT) (req : DNSPacketT) :
    List DNSAnswerT → List DNSAnswerT → Option (List DNSAnswerT)
  | [], acc => some acc
  | c :: rest, acc =>
    match lk (cnameSubRequest req c) with
    | none => none
    | some res => followCnamesF lk req rest (acc ++ res.answers)

mutual

/-- Fuel-indexed model of `recursiveLookup(requestObject)`.  The
transport is abstracted as `oracle ip request`, returning the decoded
upstream response or `none` for a failed exchange (no response or a
rejected decode, both of which throw in the source).  `pick` stands
for `pickRandomFromArray` on record lists and `pickRoot` for the root
pick; both return `none` on an empty list, as indexing with
`Math.floor(Math.random()*0)` yields `undefined`.  A result of `none`
means the computation is still running after `fuel` loop iterations
and recursive calls. -/
def recursiveLookupF (oracle : String → DNSPacketT → Option DNSPacketT)
    (pick : List DNSAnswerT → Option DNSAnswerT)
    (pickRoot : List RootNS → Option RootNS) :
    Nat → DNSPacketT → Option DNSPacketT
  | 0, _ => none
  | fuel + 1, req =>
    match pickRoot rootNameServers with
    | none => some (catchResponse req)
    | some root =>
      match req.questions.head? with
      | none => some (catchResponse req)
      | some q =>
        match lookupLoop oracle pick pickRoot fuel req q root.ipv4 with
        | .noFuel => none
        | .threw => some (catchResponse req)
        | .ret p => some p
  termination_by structural fuel _ => fuel

/-- One iteration of the `for(;;)` loop of `recursiveLookup`, with the
current upstream ip as loop state.  Branch order follows the source:
failed exchange throws; upstream `NAME_ERROR` returns normalized;
nonempty answers chase CNAMEs and return; nonempty additionals pick an
IPv4-glue record (`rdlength = 4`) and continue — picking from an empty
filtered list yields `undefined` and the field access throws; otherwise
a valid authority is picked, an SOA authority returns an NXDOMAIN
response, any other is resolved recursively for its address. -/
def lookupLoop (oracle : String → DNSPacketT → Option DNSPacketT)
    (pick : List DNSAnswerT → Option DNSAnswerT)
    (pickRoot : List RootNS → Option RootNS) :
    Nat → DNSPacketT → DNSQuestionT → String → LoopOut
  | 0, _, _, _ => .noFuel
  | fuel + 1, req, q, ip =>
    match oracle ip req with
    | none => .threw
    | some r =>
      if r.header.rcode = ResponseCode.NAME_ERROR then
        .ret { r with
               header := { r.header with
                           aa := 0, ra := 1, qr := 1, rcode := ResponseCode.NAME_ERROR } }
      else if r.answers ≠ [] then
        let cnames :=
          if q.type ≠ RecordType.CNAME then
            r.answers.filter (fun a => a.type = RecordType.CNAME)
          else []
        match followCnamesF (recursiveLookupF oracle pick pickRoot fuel) req cnames r.answers with
        | none => .noFuel
        | some ans =>
          .ret { header := { r.header with
                             ancount := ans.length, aa := 0, ra := 1,
                             nscount := 0, arcount := 0 },
                 questions := [q], answers := ans, authorities := [], additionals := [] }
      else if r.additionals ≠ [] then
        match pick (r.additionals.filter (fun record => record.rdlength = 4)) with
        | none => .threw
        | some add => lookupLoop oracle pick pickRoot fuel req q add.rdata
      else
        let chosen : Option DNSAnswerT :=
          if r.authorities ≠ [] then
            pick ((r.authorities.map (fun a => { a with name := a.rdata })).filter
              (fun a => isValidDomain a.name))
          else none
        match chosen with
        | some ch =>
          if ch.type = RecordType.SOA then
            .ret { header := { req.header with
                               qr := 1, rcode := ResponseCode.NAME_ERROR,
                               nscount := r.authorities.length },
                   questions := [q], answers := [], authorities := r.authorities,
                   additionals := r.additionals }
          else
            match recursiveLookupF oracle pick pickRoot fuel (authoritySubRequest req ch) with
            | none => .noFuel
            | some res =>
              if res.answers ≠ [] then
                match pick res.answers with
                | some ansRec => lookupLoop oracle pick pickRoot fuel req q ansRec.rdata
                | none => .threw
              else .ret (finalNameError req q r)
        | none => .ret (finalNameError req q r)
  termination_by structural fuel _ _ _ => fuel

end

/-! ## Definitions following the words of the specification, for
comparison with the source embedding -/

/-- Name written as its label list joined with dots. -/
def dottedName (labels : List String) : String :=
  String.mk (joinChars '.' (labels.map (fun l => l.data)))

/-- Suffix walk of the normative compression algorithm in the spec:
from the longest suffix of the label list to the shortest, emit, for
the first suffix present in the table, the unmatched leading labels
followed by a pointer to the stored offset; with no suffix in the
table, all labels followed by a zero octet. -/
def specSuffixEncodeGo (t : LabelTable) : List String → List String → List Nat
  | front, [] => labelsToBytes front ++ [0]
  | front, l :: rest =>
    match tableLookup t (dottedName (l :: rest)) with
    | some off => labelsToBytes front ++ encodePointerBytes off
    | none => specSuffixEncodeGo t (front ++ [l]) rest

/-- Name encoding described by the spec (walk the suffixes longest to
shortest), to be compared with `encodeDomainName` of the source. -/
def specEncodeDomainName (name : String) (t : LabelTable) : List Nat :=
  specSuffixEncodeGo t [] (splitLabels name)

/-- Answer list described by the claim for the answer branch of the
engine: for each CNAME among the upstream answers (none when the
original question type is CNAME), append to the upstream answers the
answers of a recursive lookup of a single-question sub-query for the
CNAME target with type CNAME, class IN. -/
def cnameChaseSpec (lk : DNSPacketT → Option DNSPacketT) (req : DNSPacketT)
    (q : DNSQuestionT) (r : DNSPacketT) : Option (List DNSAnswerT) :=
  let targets :=
    if q.type = RecordType.CNAME then []
    else r.answers.filter (fun a => a.type = RecordType.CNAME)
  targets.foldlM
    (fun acc c => (lk (cnameSubRequest req c)).map (fun res => acc ++ res.answers))
    r.answers

/-- Final response shape described by the claim for the answer branch:
`ancount` equal to the number of answers, `aa=0, ra=1, nscount=0,
arcount=0`, the original question, and empty authority and additional
sections. -/
def answerResponseSpec (q : DNSQuestionT) (r : DNSPacketT)
    (ans : List DNSAnswerT) : DNSPacketT :=
  { header := { r.header with
                ancount := ans.length, aa := 0, ra := 1, nscount := 0, arcount := 0 },
    questions := [q], answers := ans, authorities := [], additionals := [] }

/-! ## Helper lemmas: split and join -/

lemma charSplit_no_sep (sep : Char) (l : List Char) (h : sep ∉ l) :
    charSplit sep l = [l] := by
  induction l with
  | nil => rfl
  | cons c cs ih =>
    have hc : c ≠ sep := fun hx => h (hx ▸ List.mem_cons_self c cs)
    have hcs : sep ∉ cs := fun hx => h (List.mem_cons_of_mem c hx)
    simp only [charSplit, ih hcs, if_neg hc]

lemma charSplit_append_sep (sep : Char) (l t : List Char) (h : sep ∉ l) :
    charSplit sep (l ++ sep :: t) = l :: charSplit sep t := by
  induction l with
  | nil => simp [charSplit]
  | cons c cs ih =>
    have hc : c ≠ sep := fun hx => h (hx ▸ List.mem_cons_self c cs)
    have hcs : sep ∉ cs := fun hx => h (List.mem_cons_of_mem c hx)
    simp only [List.cons_append, charSplit, List.append_eq, ih hcs, if_neg hc]

/-- Splitting at a separator is a left inverse of joining with it, for
a nonempty list of separator-free pieces. -/
lemma charSplit_joinChars (sep : Char) :
    ∀ ls : List (List Char), ls ≠ [] → (∀ l ∈ ls, sep ∉ l) →
      charSplit sep (joinChars sep ls) = ls
  | [], h, _ => absurd rfl h
  | [l], _, hs => by
    simpa [joinChars] using charSplit_no_sep sep l (hs l (List.mem_singleton_self l))
  | l :: l2 :: rest, _, hs => by
    have h1 : sep ∉ l := hs l (List.mem_cons_self _ _)
    have hrest : ∀ x ∈ l2 :: rest, sep ∉ x := fun x hx => hs x (List.mem_cons_of_mem l hx)
    have ih := charSplit_joinChars sep (l2 :: rest) (by simp) hrest
    simp only [joinChars, charSplit_append_sep sep l _ h1, ih]

/-! ## Helper lemmas: byte indexing -/

lemma byteAt_append_cons (pre : List Nat) (x : Nat) (rest : List Nat) :
    byteAt (pre ++ x :: rest) pre.length = x := by
  simp [byteAt, List.getElem?_append_right (Nat.le_refl pre.length)]

lemma byteAt_append_cons_succ (pre : List Nat) (x y : Nat) (rest : List Nat) :
    byteAt (pre ++ x :: y :: rest) (pre.length + 1) = y := by
  have h : pre ++ x :: y :: rest = (pre ++ [x]) ++ y :: rest := by simp
  have hl : (pre ++ [x]).length = pre.length + 1 := by simp
  rw [h, ← hl, byteAt_append_cons]

lemma read16_append (pre : List Nat) (a b : Nat) (rest : List Nat) :
    read16 (pre ++ a :: b :: rest) pre.length = a * 256 + b := by
  rw [read16, byteAt_append_cons, byteAt_append_cons_succ]

lemma write16_length (v : Nat) : (write16 v).length = 2 := by simp [write16]

lemma read16_cons_0 (a b : Nat) (rest : List Nat) :
    read16 (a :: b :: rest) 0 = a * 256 + b := read16_append [] a b rest

lemma read16_cons_2 (x0 x1 a b : Nat) (rest : List Nat) :
    read16 (x0 :: x1 :: a :: b :: rest) 2 = a * 256 + b := read16_append [x0, x1] a b rest

lemma read16_cons_4 (x0 x1 x2 x3 a b : Nat) (rest : List Nat) :
    read16 (x0 :: x1 :: x2 :: x3 :: a :: b :: rest) 4 = a * 256 + b :=
  read16_append [x0, x1, x2, x3] a b rest

lemma read16_cons_6 (x0 x1 x2 x3 x4 x5 a b : Nat) (rest : List Nat) :
    read16 (x0 :: x1 :: x2 :: x3 :: x4 :: x5 :: a :: b :: rest) 6 = a * 256 + b :=
  read16_append [x0, x1, x2, x3, x4, x5] a b rest

lemma read16_cons_8 (x0 x1 x2 x3 x4 x5 x6 x7 a b : Nat) (rest : List Nat) :
    read16 (x0 :: x1 :: x2 :: x3 :: x4 :: x5 :: x6 :: x7 :: a :: b :: rest) 8 = a * 256 + b :=
  read16_append [x0, x1, x2, x3, x4, x5, x6, x7] a b rest

lemma read16_cons_10 (x0 x1 x2 x3 x4 x5 x6 x7 x8 x9 a b : Nat) (rest : List Nat) :
    read16 (x0 :: x1 :: x2 :: x3 :: x4 :: x5 :: x6 :: x7 :: x8 :: x9 :: a :: b :: rest) 10
      = a * 256 + b :=
  read16_append [x0, x1, x2, x3, x4, x5, x6, x7, x8, x9] a b rest

lemma labelsToBytes_nil : labelsToBytes [] = [] := rfl

lemma labelsToBytes_cons (l : String) (rest : List String) :
    labelsToBytes (l :: rest) =
      (l.length % 256 :: l.data.map Char.toNat) ++ labelsToBytes rest := by
  simp [labelsToBytes]

/-! ## Helper lemmas: header codec -/

/-- Decoding the encoded header (followed by anything) recovers every
field except `z`, which comes back as `z + 8*ra` because the decoder
reads it with a four-bit mask that includes the `ra` bit. -/
lemma decodeHeader_encodeHeader (h : DNSHeaderT) (rest : List Nat)
    (hid : h.id < 65536) (hqr : h.qr < 2) (hop : h.opcode < 16) (haa : h.aa < 2)
    (htc : h.tc < 2) (hrd : h.rd < 2) (hra : h.ra < 2) (hz : h.z < 8)
    (hrc : h.rcode < 16) (hqd : h.qdcount < 65536) (han : h.ancount < 65536)
    (hns : h.nscount < 65536) (har : h.arcount < 65536) :
    decodeHeader (encodeHeader h ++ rest) 0 = ({ h with z := h.z + 8 * h.ra }, 12) := by
  have hF : headerFlags h < 65536 := by unfold headerFlags; omega
  have hFe : headerFlags h = h.qr * 32768 + h.opcode * 2048 + h.aa * 1024 + h.tc * 512 +
      h.rd * 256 + h.ra * 128 + h.z * 16 + h.rcode := rfl
  have hb : encodeHeader h ++ rest
      = h.id / 256 % 256 :: h.id % 256 ::
        headerFlags h / 256 % 256 :: headerFlags h % 256 ::
        h.qdcount / 256 % 256 :: h.qdcount % 256 ::
        h.ancount / 256 % 256 :: h.ancount % 256 ::
        h.nscount / 256 % 256 :: h.nscount % 256 ::
        h.arcount / 256 % 256 :: h.arcount % 256 :: rest := by
    simp [encodeHeader, write16]
  rw [decodeHeader, hb]
  simp only [Nat.zero_add, read16_cons_0, read16_cons_2, read16_cons_4, read16_cons_6,
    read16_cons_8, read16_cons_10, Prod.mk.injEq]
  rw [DNSHeaderT.mk.injEq]
  refine ⟨?_, trivial⟩
  omega

/-! ## Helper lemmas: name decoding over a pointerless label wire -/

lemma length_pos_of_ne_empty (s : String) (h : s ≠ "") : 0 < s.length := by
  cases s with
  | mk l =>
    cases l with
    | nil => exact absurd rfl h
    | cons c cs => simp [String.length]

lemma map_ofNat_toNat (l : List Char) : (l.map Char.toNat).map Char.ofNat = l := by
  rw [List.map_map]
  exact List.map_id'' (fun c => Char.ofNat_toNat c) l

/-- Walking an encoded label sequence (each label nonempty and at most
63 octets) terminated by a zero octet decodes to the labels joined with
dots, with the cursor placed just past the zero octet, for any
recursion bound exceeding the number of labels. -/
lemma decodeDomainNameGo_labels (ls : List String) :
    ∀ (pre post : List Nat) (acc : List (List Char)) (fuel : Nat),
      (∀ l ∈ ls, l ≠ "" ∧ l.length ≤ 63) → ls.length + 1 ≤ fuel →
      decodeDomainNameGo (pre ++ (labelsToBytes ls ++ 0 :: post)) fuel pre.length acc
        = .ok (String.mk (joinChars '.' (acc ++ ls.map (fun l => l.data))))
            (pre.length + (labelsToBytes ls).length + 1) := by
  induction ls with
  | nil =>
    intro pre post acc fuel _ hf
    obtain ⟨f, rfl⟩ : ∃ f, fuel = f + 1 := ⟨fuel - 1, by omega⟩
    rw [labelsToBytes_nil, List.nil_append]
    have hlt : pre.length < (pre ++ 0 :: post).length := by
      simp only [List.length_append, List.length_cons]; omega
    have e1 : byteAt (pre ++ 0 :: post) pre.length = 0 := byteAt_append_cons pre 0 post
    simp only [decodeDomainNameGo, if_pos hlt, isPointerAt, e1]
    norm_num
  | cons l rest ih =>
    intro pre post acc fuel hl hf
    have hlne : l ≠ "" := (hl l (List.mem_cons_self l rest)).1
    have hl63 : l.length ≤ 63 := (hl l (List.mem_cons_self l rest)).2
    have hlpos : 0 < l.length := length_pos_of_ne_empty l hlne
    have hrest : ∀ x ∈ rest, x ≠ "" ∧ x.length ≤ 63 :=
      fun x hx => hl x (List.mem_cons_of_mem l hx)
    obtain ⟨f, rfl⟩ : ∃ f, fuel = f + 1 := ⟨fuel - 1, by omega⟩
    have hf' : rest.length + 1 ≤ f := by
      simp only [List.length_cons] at hf; omega
    have hmod : l.length % 256 = l.length := Nat.mod_eq_of_lt (by omega)
    have hbuf : pre ++ (labelsToBytes (l :: rest) ++ 0 :: post)
        = pre ++ l.length :: (l.data.map Char.toNat ++ (labelsToBytes rest ++ 0 :: post)) := by
      rw [labelsToBytes_cons, hmod]
      simp [List.append_assoc]
    rw [hbuf]
    have hlt : pre.length <
        (pre ++ l.length :: (l.data.map Char.toNat ++ (labelsToBytes rest ++ 0 :: post))).length := by
      simp only [List.length_append, List.length_cons]; omega
    have e1 : byteAt
        (pre ++ l.length :: (l.data.map Char.toNat ++ (labelsToBytes rest ++ 0 :: post)))
        pre.length = l.length := byteAt_append_cons pre l.length _
    have hdrop :
        (pre ++ l.length :: (l.data.map Char.toNat ++ (labelsToBytes rest ++ 0 :: post))).drop
          (pre.length + 1) = l.data.map Char.toNat ++ (labelsToBytes rest ++ 0 :: post) := by
      have hsh : pre ++ l.length :: (l.data.map Char.toNat ++ (labelsToBytes rest ++ 0 :: post))
          = (pre ++ [l.length]) ++ (l.data.map Char.toNat ++ (labelsToBytes rest ++ 0 :: post)) := by
        simp
      rw [hsh, List.drop_left' (by simp)]
    have htake : (l.data.map Char.toNat ++ (labelsToBytes rest ++ 0 :: post)).take l.length
        = l.data.map Char.toNat := List.take_left' (by rw [List.length_map]; rfl)
    have hnp : isPointerAt
        (pre ++ l.length :: (l.data.map Char.toNat ++ (labelsToBytes rest ++ 0 :: post)))
        pre.length = false := by
      simp only [isPointerAt, e1, decide_eq_false_iff_not]
      omega
    simp only [decodeDomainNameGo]
    rw [if_pos hlt, hnp]
    simp only [Bool.false_eq_true, if_false]
    rw [e1, if_neg (by omega), hdrop, htake, map_ofNat_toNat]
    have hidx : pre.length + l.length + 1
        = (pre ++ l.length :: l.data.map Char.toNat).length := by
      simp only [List.length_append, List.length_cons, List.length_map]
      have : l.length = l.data.length := rfl
      omega
    have hsh2 : pre ++ l.length :: (l.data.map Char.toNat ++ (labelsToBytes rest ++ 0 :: post))
        = (pre ++ l.length :: l.data.map Char.toNat) ++ (labelsToBytes rest ++ 0 :: post) := by
      simp
    rw [hidx, hsh2, ih (pre ++ l.length :: l.data.map Char.toNat) post (acc ++ [l.data]) f
      hrest hf']
    have hjoin : (acc ++ [l.data]) ++ rest.map (fun l => l.data)
        = acc ++ (l :: rest).map (fun l => l.data) := by
      simp
    rw [hjoin]
    have hwl : (pre ++ l.length :: l.data.map Char.toNat).length
        + (labelsToBytes rest).length + 1
        = pre.length + (labelsToBytes (l :: rest)).length + 1 := by
      rw [labelsToBytes_cons, hmod]
      simp only [List.length_append, List.length_cons, List.length_map]
      have : l.length = l.data.length := rfl
      omega
    rw [hwl]

/-! ## Helper lemmas: splitting a dotted name -/

/-- Splitting a dotted name (labels nonempty and free of dots)
recovers the labels. -/
lemma splitLabels_dottedName (ls : List String) (hne : ls ≠ [])
    (h : ∀ l ∈ ls, l ≠ "" ∧ '.' ∉ l.data) :
    splitLabels (dottedName ls) = ls := by
  unfold splitLabels jsSplit dottedName
  have hdata : (String.mk (joinChars '.' (ls.map (fun l => l.data)))).data
      = joinChars '.' (ls.map (fun l => l.data)) := rfl
  rw [hdata]
  rw [charSplit_joinChars '.' (ls.map (fun l => l.data))
    (by simpa using hne)
    (by
      intro x hx
      obtain ⟨l, hl, rfl⟩ := List.mem_map.mp hx
      exact (h l hl).2)]
  rw [List.map_map]
  have hmk : ls.map (String.mk ∘ fun l => l.data) = ls := by
    apply List.map_id''
    intro s
    cases s
    rfl
  rw [hmk]
  apply List.filter_eq_self.mpr
  intro l hl
  simpa using (h l hl).1

lemma length_le_labelsToBytes (ls : List String) :
    ls.length ≤ (labelsToBytes ls).length := by
  induction ls with
  | nil => simp [labelsToBytes]
  | cons l rest ih =>
    rw [labelsToBytes_cons]
    simp only [List.length_append, List.length_cons]
    omega

lemma encodeHeader_length (h : DNSHeaderT) : (encodeHeader h).length = 12 := by
  simp [encodeHeader, write16]

/-- Value of encoding a single-question message with empty record
sections: the header bytes, the label wire of the question name with
its terminating zero octet, then the question type and class. -/
lemma encodePacket_single (h : DNSHeaderT) (q : DNSQuestionT) :
    encodePacket ⟨h, [q], [], [], []⟩
      = encodeHeader h ++
        (labelsToBytes (splitLabels q.name) ++
          0 :: (write16 q.type ++ write16 q.cls)) := by
  simp [encodePacket, encodeQuestionsF, encodeQuestion, encodeDomainName, tableLookup,
    findCompression, encodeRecordsF, storeEncoded]

lemma decodeQuestionsF_zero (buf : List Nat) (fuel offset : Nat) :
    decodeQuestionsF buf fuel 0 offset = .ok ([], offset) := rfl

lemma decodeQuestionsF_one (buf : List Nat) (fuel offset : Nat) :
    decodeQuestionsF buf fuel 1 offset =
      if offset < buf.length then
        match decodeQuestion buf fuel offset with
        | .ok (q, next) =>
          match decodeQuestionsF buf fuel 0 next with
          | .ok (qs, fin) => .ok (q :: qs, fin)
          | .fmtError => .fmtError
        | .fmtError => .fmtError
      else .ok ([], offset) := rfl

lemma decodeRecordsF_zero (buf : List Nat) (fuel offset : Nat) :
    decodeRecordsF buf fuel 0 offset = .ok ([], offset) := rfl

/-- C1 (amended): for every single-question message with empty record
sections, in-range header fields and a well-formed ASCII question name,
decoding the encoding recovers the message exactly except for the
header field `z`, which decodes as `z + 8*ra` because `DNSHeader.decode`
reads `z` with a four-bit mask that includes the `ra` bit. -/
theorem C1_roundtrip_amended (h : DNSHeaderT) (ls : List String) (ty cls : Nat)
    (hid : h.id < 65536) (hqr : h.qr < 2) (hop : h.opcode < 16) (haa : h.aa < 2)
    (htc : h.tc < 2) (hrd : h.rd < 2) (hra : h.ra < 2) (hz : h.z < 8) (hrc : h.rcode < 16)
    (hqd : h.qdcount = 1) (han : h.ancount = 0) (hns : h.nscount = 0) (har : h.arcount = 0)
    (hty : ty < 65536) (hcls : cls < 65536) (hlsne : ls ≠ [])
    (hlab : ∀ l ∈ ls, l ≠ "" ∧ l.length ≤ 63 ∧ ∀ c ∈ l.data, c.toNat < 128 ∧ c ≠ '.') :
    decodePacketF (encodePacket ⟨h, [⟨dottedName ls, ty, cls⟩], [], [], []⟩)
      = .ok ⟨{ h with z := h.z + 8 * h.ra }, [⟨dottedName ls, ty, cls⟩], [], [], []⟩ := by
  have hsplit : splitLabels (dottedName ls) = ls :=
    splitLabels_dottedName ls hlsne (fun l hl =>
      ⟨(hlab l hl).1, fun hdot => ((hlab l hl).2.2 '.' hdot).2 rfl⟩)
  have hls63 : ∀ l ∈ ls, l ≠ "" ∧ l.length ≤ 63 :=
    fun l hl => ⟨(hlab l hl).1, (hlab l hl).2.1⟩
  have henc : encodePacket ⟨h, [⟨dottedName ls, ty, cls⟩], [], [], []⟩
      = encodeHeader h ++ (labelsToBytes ls ++ 0 :: (write16 ty ++ write16 cls)) := by
    rw [encodePacket_single]
    simp only [hsplit]
  rw [henc]
  set W := (labelsToBytes ls).length with hW
  set B := encodeHeader h ++ (labelsToBytes ls ++ 0 :: (write16 ty ++ write16 cls)) with hB
  have hBlen : B.length = 17 + W := by
    rw [hB]
    simp only [List.length_append, List.length_cons, encodeHeader_length, write16_length, hW]
    omega
  have hfuel : ls.length + 1 ≤ (B.length + 2) * (B.length + 2) := by
    have h1 := length_le_labelsToBytes ls
    have h2 : B.length + 2 ≤ (B.length + 2) * (B.length + 2) :=
      Nat.le_mul_of_pos_left _ (by omega)
    omega
  have hdec : decodeHeader B 0 = ({ h with z := h.z + 8 * h.ra }, 12) := by
    rw [hB]
    exact decodeHeader_encodeHeader h _ hid hqr hop haa htc hrd hra hz hrc
      (by omega) (by omega) (by omega) (by omega)
  have hname : decodeDomainNameF B ((B.length + 2) * (B.length + 2)) 12
      = .ok (dottedName ls) (12 + W + 1) := by
    unfold decodeDomainNameF
    rw [show (12 : Nat) = (encodeHeader h).length from (encodeHeader_length h).symm, hB]
    rw [decodeDomainNameGo_labels ls (encodeHeader h) (write16 ty ++ write16 cls) []
      ((B.length + 2) * (B.length + 2)) hls63 hfuel]
    rw [encodeHeader_length h]
    simp only [List.nil_append, dottedName]
  have hB2 : B = (encodeHeader h ++ labelsToBytes ls ++ [0]) ++
      (ty / 256 % 256 :: ty % 256 :: (cls / 256 % 256 :: cls % 256 :: [])) := by
    rw [hB]
    simp [write16]
  have hlen2 : (encodeHeader h ++ labelsToBytes ls ++ [0]).length = 12 + W + 1 := by
    simp only [List.length_append, encodeHeader_length, List.length_cons, List.length_nil, hW]
  have e_ty : read16 B (12 + W + 1) = ty := by
    rw [hB2, ← hlen2, read16_append]
    omega
  have hB3 : B = ((encodeHeader h ++ labelsToBytes ls ++ [0]) ++
        [ty / 256 % 256, ty % 256]) ++ (cls / 256 % 256 :: cls % 256 :: []) := by
    rw [hB2]
    try simp
  have hlen3 : ((encodeHeader h ++ labelsToBytes ls ++ [0]) ++
      [ty / 256 % 256, ty % 256]).length = 12 + W + 1 + 2 := by
    simp only [List.length_append, encodeHeader_length, List.length_cons, List.length_nil, hW]
    try omega
  have e_cls : read16 B (12 + W + 1 + 2) = cls := by
    rw [hB3, ← hlen3, read16_append]
    omega
  have hq : decodeQuestion B ((B.length + 2) * (B.length + 2)) 12
      = .ok (⟨dottedName ls, ty, cls⟩, 12 + W + 1 + 4) := by
    rw [decodeQuestion, hname]
    dsimp only
    rw [if_pos (by omega), e_ty, e_cls]
  have hqs : decodeQuestionsF B ((B.length + 2) * (B.length + 2)) 1 12
      = .ok ([⟨dottedName ls, ty, cls⟩], 12 + W + 1 + 4) := by
    rw [decodeQuestionsF_one, if_pos (by omega), hq]
    dsimp only [decodeQuestionsF_zero]
  rw [decodePacketF]
  rw [if_neg (by omega)]
  rw [hdec]
  simp only [hqd, Nat.lt_irrefl, if_false, hqs, han, hns, har, decodeRecordsF_zero]

/-- C1 (counterexample): the claim that every header field, including
`z`, survives the encode/decode round trip is false.  For a message
whose header has `ra = 1` and `z = 0`, the decoded message carries
`z = 8`: the decoder's four-bit mask for `z` picks up the `ra` bit, so
the decoded logical content differs from the original message. -/
theorem C1_roundtrip_counterexample :
    decodePacketF (encodePacket
      ⟨⟨1, 0, 0, 0, 0, 0, 1, 0, 0, 1, 0, 0, 0⟩, [⟨"ab", 1, 1⟩], [], [], []⟩)
      = .ok ⟨⟨1, 0, 0, 0, 0, 0, 1, 8, 0, 1, 0, 0, 0⟩, [⟨"ab", 1, 1⟩], [], [], []⟩ ∧
    (⟨⟨1, 0, 0, 0, 0, 0, 1, 8, 0, 1, 0, 0, 0⟩, [⟨"ab", 1, 1⟩], [], [], []⟩ : DNSPacketT)
      ≠ ⟨⟨1, 0, 0, 0, 0, 0, 1, 0, 0, 1, 0, 0, 0⟩, [⟨"ab", 1, 1⟩], [], [], []⟩ := by
  constructor
  · decide
  · decide

/-- C1 (witness): the amended round-trip theorem applied to a concrete
single-question message with `ra = 0`, where the round trip is exact. -/
theorem C1_roundtrip_witness :
    decodePacketF (encodePacket
      ⟨⟨3, 1, 2, 1, 0, 1, 0, 5, 0, 1, 0, 0, 0⟩, [⟨dottedName ["ab", "c"], 1, 1⟩], [], [], []⟩)
      = .ok ⟨⟨3, 1, 2, 1, 0, 1, 0, 5, 0, 1, 0, 0, 0⟩,
             [⟨dottedName ["ab", "c"], 1, 1⟩], [], [], []⟩ :=
  C1_roundtrip_amended ⟨3, 1, 2, 1, 0, 1, 0, 5, 0, 1, 0, 0, 0⟩ ["ab", "c"] 1 1
    (by decide) (by decide) (by decide) (by decide) (by decide) (by decide) (by decide)
    (by decide) (by decide) (by decide) (by decide) (by decide) (by decide) (by decide)
    (by decide) (by decide) (by decide)

/-- C3 (counterexample): a pointer whose offset (16) lies beyond the
buffer length (2) does not fail with FormatError: the recursive decode
at the out-of-range offset finds its loop condition false, returns the
empty name, and the caller silently yields the empty name with the
cursor advanced past the pointer. -/
theorem C3_pointer_counterexample :
    decodeDomainNameF [192, 16] 4 0 = DomainNameRes.ok "" 2 := by decide

/-- C3 (amended): the decoder performs no pointer validation and does
not detect cycles: on a name whose pointer targets itself, the
recursion never returns for any bound (in Node it aborts with a stack
overflow rather than a FormatError), and an out-of-range pointer
decodes silently as the empty name instead of failing. -/
theorem C3_pointer_amended :
    ∀ fuel : Nat, decodeDomainNameF [192, 0] fuel 0 = DomainNameRes.out := by
  intro fuel
  induction fuel with
  | zero => rfl
  | succ f ih =>
    unfold decodeDomainNameF at ih ⊢
    have step : decodeDomainNameGo [192, 0] (f + 1) 0 [] =
        match decodeDomainNameGo [192, 0] f 0 [] with
        | .ok dn _ => .ok (String.mk (joinChars '.' ([] ++ [dn.data]))) 2
        | .rangeErr => .rangeErr
        | .out => .out := rfl
    rw [step, ih]

/-! ## Compression-scan characterization -/

lemma findCompression_none (name : String) (t : LabelTable)
    (h : ∀ e ∈ t, jsIndexOf name e.1 = none) : findCompression name t = none := by
  induction t with
  | nil => rfl
  | cons e rest ih =>
    have he : jsIndexOf name e.1 = none := h e (List.mem_cons_self e rest)
    have hrest : ∀ x ∈ rest, jsIndexOf name x.1 = none :=
      fun x hx => h x (List.mem_cons_of_mem e hx)
    cases e with
    | mk k off =>
      simp only [findCompression, he, ih hrest]

/-- What the table scan actually finds: the first key in insertion
order that occurs as a substring of the name, at its first occurrence
index, with all earlier keys absent from the name. -/
lemma findCompression_first (name : String) (t : LabelTable) (i k : Nat)
    (h : findCompression name t = some (i, k)) :
    ∃ t1 e t2, t = t1 ++ e :: t2 ∧ jsIndexOf name e.1 = some i ∧ e.2 = k ∧
      ∀ e' ∈ t1, jsIndexOf name e'.1 = none := by
  induction t with
  | nil => exact absurd h (by simp [findCompression])
  | cons e rest ih =>
    cases e with
    | mk k0 off0 =>
      by_cases hidx : ∃ j, jsIndexOf name k0 = some j
      · obtain ⟨j, hj⟩ := hidx
        have : some (j, off0) = some (i, k) := by
          rw [← h]
          simp [findCompression, hj]
        have hj' : j = i ∧ off0 = k := by
          constructor <;> injection this with h2 <;> cases h2 <;> rfl
        exact ⟨[], (k0, off0), rest, by simp, by rw [hj, hj'.1], hj'.2, by simp⟩
      · have hnone : jsIndexOf name k0 = none := by
          cases hcase : jsIndexOf name k0 with
          | none => rfl
          | some j => exact absurd ⟨j, hcase⟩ hidx
        have h' : findCompression name rest = some (i, k) := by
          rw [← h]
          simp [findCompression, hnone]
        obtain ⟨t1, e, t2, ht, hocc, hoff, hearlier⟩ := ih h'
        refine ⟨(k0, off0) :: t1, e, t2, by rw [ht]; rfl, hocc, hoff, ?_⟩
        intro e' he'
        rcases List.mem_cons.mp he' with h0 | h0
        · rw [h0]; exact hnone
        · exact hearlier e' h0

/-- C4 (amended): what the encoder actually does with a nonempty
compression table.  (1) A whole-name key yields a bare pointer and the
table is left unchanged.  (2) When no table key occurs anywhere as a
substring of the name, all labels are emitted followed by a zero
octet.  (3) The scan finds the first key in insertion order occurring
as a substring of the name (not a longest-suffix walk).  (4) A key
occurring at index 0 yields a bare pointer even when it is not the
whole name.  (5) A key occurring at a positive index yields the labels
of the characters before the occurrence followed by a pointer. -/
theorem C4_compression_amended :
    (∀ (name : String) (t : LabelTable) (off : Option Nat) (k : Nat),
      tableLookup t name = some k →
      (encodeDomainName name (some t) off).1 = encodePointerBytes k) ∧
    (∀ (name : String) (t : LabelTable) (off : Option Nat),
      tableLookup t name = none → (∀ e ∈ t, jsIndexOf name e.1 = none) →
      (encodeDomainName name (some t) off).1 = labelsToBytes (splitLabels name) ++ [0]) ∧
    (∀ (name : String) (t : LabelTable) (i k : Nat),
      findCompression name t = some (i, k) →
      ∃ t1 e t2, t = t1 ++ e :: t2 ∧ jsIndexOf name e.1 = some i ∧ e.2 = k ∧
        ∀ e' ∈ t1, jsIndexOf name e'.1 = none) ∧
    (∀ (name : String) (t : LabelTable) (off : Option Nat) (k : Nat),
      tableLookup t name = none → findCompression name t = some (0, k) →
      (encodeDomainName name (some t) off).1 = encodePointerBytes k) ∧
    (∀ (name : String) (t : LabelTable) (off : Option Nat) (i k : Nat),
      tableLookup t name = none → findCompression name t = some (i + 1, k) →
      (encodeDomainName name (some t) off).1
        = labelsToBytes (splitLabels (String.mk (name.data.take (i + 1))))
          ++ encodePointerBytes k) := by
  refine ⟨?_, ?_, ?_, ?_, ?_⟩
  · intro name t off k h
    simp [encodeDomainName, h]
  · intro name t off h1 h2
    simp [encodeDomainName, h1, findCompression_none name t h2]
  · intro name t i k h
    exact findCompression_first name t i k h
  · intro name t off k h1 h2
    simp [encodeDomainName, h1, h2]
  · intro name t off i k h1 h2
    simp [encodeDomainName, h1, h2]

/-- C4 (counterexample): with the table binding "ample.com" to offset
12, encoding "example.com" emits the label "ex" followed by a pointer
to "ample.com" — a pointer to a non-suffix substring occurrence — while
the normative suffix walk of the spec, which finds no suffix in the
table, emits all labels followed by a zero octet. -/
theorem C4_compression_counterexample :
    (encodeDomainName "example.com" (some [("ample.com", 12)]) (some 20)).1
      = [2, 101, 120, 192, 12] ∧
    specEncodeDomainName "example.com" [("ample.com", 12)]
      = [7, 101, 120, 97, 109, 112, 108, 101, 3, 99, 111, 109, 0] ∧
    (encodeDomainName "example.com" (some [("ample.com", 12)]) (some 20)).1
      ≠ specEncodeDomainName "example.com" [("ample.com", 12)] := by
  refine ⟨by decide, by decide, by decide⟩

/-- C4 (witness): the amended characterization applied at concrete
inputs — a whole-name hit, a no-match table, a bare-pointer index-0
hit, and a positive-index hit. -/
theorem C4_compression_witness :
    (encodeDomainName "a.b" (some [("a.b", 13)]) (some 20)).1 = encodePointerBytes 13 ∧
    (encodeDomainName "a.b" (some [("zz", 13)]) (some 20)).1
      = labelsToBytes (splitLabels "a.b") ++ [0] ∧
    (encodeDomainName "ample.com" (some [("ample", 13)]) (some 20)).1
      = encodePointerBytes 13 ∧
    (encodeDomainName "example.com" (some [("ample.com", 12)]) (some 20)).1
      = labelsToBytes (splitLabels (String.mk ("example.com".data.take 2)))
        ++ encodePointerBytes 12 :=
  ⟨C4_compression_amended.1 "a.b" [("a.b", 13)] (some 20) 13 (by decide),
   C4_compression_amended.2.1 "a.b" [("zz", 13)] (some 20) (by decide) (by decide),
   C4_compression_amended.2.2.2.1 "ample.com" [("ample", 13)] (some 20) 13
     (by decide) (by decide),
   C4_compression_amended.2.2.2.2 "example.com" [("ample.com", 12)] (some 20) 1 12
     (by decide) (by decide)⟩

/-- C5 (counterexample): encoding a name consisting of a single
64-octet label does not fail with FormatError — the source has no
length check and cannot throw — it emits the length byte 64 followed by
the 64 label octets and the terminating zero octet. -/
theorem C5_validation_counterexample :
    (encodeDomainName (String.mk (List.replicate 64 'a')) none none).1
      = 64 :: List.replicate 64 97 ++ [0] := by decide

/-- C5 (amended): encoding never fails and performs no length
validation: for every dotted ASCII name, regardless of how long its
labels or its total encoding are, the encoder emits, for each label,
the length byte `label.length % 256` (the coercion of `Buffer.from`)
followed by the label octets, then a zero octet. -/
theorem C5_validation_amended (ls : List String) (off : Option Nat) (hne : ls ≠ [])
    (hlab : ∀ l ∈ ls, l ≠ "" ∧ '.' ∉ l.data ∧ ∀ c ∈ l.data, c.toNat < 128) :
    (encodeDomainName (dottedName ls) none off).1
      = ls.flatMap (fun l => l.length % 256 :: l.data.map Char.toNat) ++ [0] := by
  have hsplit : splitLabels (dottedName ls) = ls :=
    splitLabels_dottedName ls hne (fun l hl => ⟨(hlab l hl).1, (hlab l hl).2.1⟩)
  simp [encodeDomainName, hsplit, labelsToBytes]

/-- C5 (witness): the amended theorem applied to a single label of 65
octets, which is emitted unvalidated with length byte 65. -/
theorem C5_validation_witness :
    (encodeDomainName (dottedName [String.mk (List.replicate 65 'b')]) none none).1
      = [String.mk (List.replicate 65 'b')].flatMap
          (fun l => l.length % 256 :: l.data.map Char.toNat) ++ [0] :=
  C5_validation_amended [String.mk (List.replicate 65 'b')] none (by decide) (by decide)

/-! ## Cache theorems -/

lemma string_ext_of_data {s t : String} (h : s.data = t.data) : s = t := by
  cases s; cases t
  exact congrArg String.mk h

/-- C6: `DNSCache.set` is set-if-absent with the expiry taken from the
first answer.  Setting a fresh key stores the answers, reports OK, and
instructs the store to expire the entry `a1[0].ttl` seconds after the
write; a second set for the same key while the entry is unexpired
changes nothing and reports null; a read while unexpired returns the
first answers; a set with an empty answer list is a no-op returning
null. -/
theorem C6_cache_set_if_absent (s : RedisState) (q : DNSQuestionT)
    (a1 a2 : List DNSAnswerT) (r1 : DNSAnswerT) (t0 t1 t2 : Nat)
    (ha1 : a1.head? = some r1) (ha2 : a2 ≠ [])
    (hfresh : s.find? (fun e => e.key = cacheKey q) = none)
    (ht1a : t0 ≤ t1) (ht1b : t1 < t0 + r1.ttl) (ht2 : t2 < t0 + r1.ttl) :
    (dnsCacheSet s t0 q a1).2 = some "OK" ∧
    ((dnsCacheSet s t0 q a1).1).find? (fun e => e.key = cacheKey q)
      = some ⟨cacheKey q, a1, t0 + r1.ttl⟩ ∧
    dnsCacheSet ((dnsCacheSet s t0 q a1).1) t1 q a2 = ((dnsCacheSet s t0 q a1).1, none) ∧
    dnsCacheGet ((dnsCacheSet s t0 q a1).1) t2 q = some a1 ∧
    dnsCacheSet s t0 q [] = (s, none) := by
  obtain ⟨tl, rfl⟩ : ∃ tl, a1 = r1 :: tl := by
    cases a1 with
    | nil => exact absurd ha1 (by simp)
    | cons hd tl =>
      refine ⟨tl, ?_⟩
      have : hd = r1 := by simpa using ha1
      rw [this]
  have hset : dnsCacheSet s t0 q (r1 :: tl)
      = (s ++ [⟨cacheKey q, r1 :: tl, t0 + r1.ttl⟩], some "OK") := by
    simp [dnsCacheSet, redisSetNxEx, hfresh]
  have hfind : (s ++ [(⟨cacheKey q, r1 :: tl, t0 + r1.ttl⟩ : CacheEntry)]).find?
      (fun e => e.key = cacheKey q) = some ⟨cacheKey q, r1 :: tl, t0 + r1.ttl⟩ := by
    rw [List.find?_append, hfresh]
    simp
  refine ⟨by rw [hset], by rw [hset]; exact hfind, ?_, ?_, by simp [dnsCacheSet]⟩
  · obtain ⟨b, bs, rfl⟩ : ∃ b bs, a2 = b :: bs := by
      cases a2 with
      | nil => exact absurd rfl ha2
      | cons b bs => exact ⟨b, bs, rfl⟩
    rw [hset]
    simp only [dnsCacheSet, redisSetNxEx, hfind]
    rw [if_pos ht1b]
  · rw [hset]
    simp only [dnsCacheGet, redisGet, hfind]
    rw [if_pos ht2]

/-- C6 (witness): the set-if-absent theorem at concrete values. -/
theorem C6_cache_set_if_absent_witness :
    (dnsCacheSet [] 1 ⟨"x.com", 1, 1⟩
        [⟨"x.com", 1, 1, 60, 4, "9.9.9.9"⟩]).2 = some "OK" ∧
    ((dnsCacheSet [] 1 ⟨"x.com", 1, 1⟩ [⟨"x.com", 1, 1, 60, 4, "9.9.9.9"⟩]).1).find?
        (fun e => e.key = cacheKey ⟨"x.com", 1, 1⟩)
      = some ⟨cacheKey ⟨"x.com", 1, 1⟩, [⟨"x.com", 1, 1, 60, 4, "9.9.9.9"⟩], 1 + 60⟩ ∧
    dnsCacheSet ((dnsCacheSet [] 1 ⟨"x.com", 1, 1⟩
        [⟨"x.com", 1, 1, 60, 4, "9.9.9.9"⟩]).1) 5 ⟨"x.com", 1, 1⟩
        [⟨"x.com", 1, 1, 600, 4, "8.8.8.8"⟩]
      = ((dnsCacheSet [] 1 ⟨"x.com", 1, 1⟩ [⟨"x.com", 1, 1, 60, 4, "9.9.9.9"⟩]).1, none) ∧
    dnsCacheGet ((dnsCacheSet [] 1 ⟨"x.com", 1, 1⟩
        [⟨"x.com", 1, 1, 60, 4, "9.9.9.9"⟩]).1) 30 ⟨"x.com", 1, 1⟩
      = some [⟨"x.com", 1, 1, 60, 4, "9.9.9.9"⟩] ∧
    dnsCacheSet [] 1 ⟨"x.com", 1, 1⟩ [] = ([], none) :=
  C6_cache_set_if_absent [] ⟨"x.com", 1, 1⟩ [⟨"x.com", 1, 1, 60, 4, "9.9.9.9"⟩]
    [⟨"x.com", 1, 1, 600, 4, "8.8.8.8"⟩] ⟨"x.com", 1, 1, 60, 4, "9.9.9.9"⟩ 1 5 30
    (by decide) (by decide) (by decide) (by decide) (by decide) (by decide)

/-- C7 (counterexample): the cache key is not built from the
lowercased qname: the questions `A.com` and `a.com` (same numeric type
and class) produce different keys and address different cache entries —
after caching an answer under `A.com`, a read for `a.com` misses while
a read for `A.com` hits. -/
theorem C7_cache_key_counterexample :
    cacheKey ⟨"A.com", 1, 1⟩ ≠ cacheKey ⟨"a.com", 1, 1⟩ ∧
    dnsCacheGet ((dnsCacheSet [] 0 ⟨"A.com", 1, 1⟩
        [⟨"A.com", 1, 1, 60, 4, "1.2.3.4"⟩]).1) 1 ⟨"a.com", 1, 1⟩ = none ∧
    dnsCacheGet ((dnsCacheSet [] 0 ⟨"A.com", 1, 1⟩
        [⟨"A.com", 1, 1, 60, 4, "1.2.3.4"⟩]).1) 1 ⟨"A.com", 1, 1⟩
      = some [⟨"A.com", 1, 1, 60, 4, "1.2.3.4"⟩] := by
  refine ⟨by decide, by decide, by decide⟩

/-- C7 (amended): the cache key is the template literal
`domain:<qname as given>:<type>:<class>` with no lowercasing; distinct
qnames (in particular case variants) with the same numeric type and
class give distinct keys, and questions with distinct keys address
disjoint entries: after a set under one key, a get under the other
misses while a get under the same key hits. -/
theorem C7_cache_key_amended :
    (∀ (n n' : String) (ty cls : Nat), n ≠ n' →
      cacheKey ⟨n, ty, cls⟩ ≠ cacheKey ⟨n', ty, cls⟩) ∧
    (∀ (q q' : DNSQuestionT) (a : List DNSAnswerT) (r : DNSAnswerT) (t0 t1 : Nat),
      a.head? = some r → cacheKey q ≠ cacheKey q' → t1 < t0 + r.ttl →
      dnsCacheGet ((dnsCacheSet [] t0 q a).1) t1 q' = none ∧
      dnsCacheGet ((dnsCacheSet [] t0 q a).1) t1 q = some a) := by
  constructor
  · intro n n' ty cls hne heq
    apply hne
    have hdata : ("domain:" ++ n ++ ":" ++ toString ty ++ ":" ++ toString cls).data
        = ("domain:" ++ n' ++ ":" ++ toString ty ++ ":" ++ toString cls).data :=
      congrArg String.data heq
    simp only [String.data_append, List.append_assoc] at hdata
    have h1 := List.append_cancel_left hdata
    have h2 : n.data = n'.data := by
      have h3 : n.data ++ (":" ++ toString ty ++ ":" ++ toString cls).data
          = n'.data ++ (":" ++ toString ty ++ ":" ++ toString cls).data := by
        simpa [String.data_append, List.append_assoc] using h1
      exact List.append_cancel_right h3
    exact string_ext_of_data h2
  · intro q q' a r t0 t1 ha hkeys ht
    obtain ⟨tl, rfl⟩ : ∃ tl, a = r :: tl := by
      cases a with
      | nil => exact absurd ha (by simp)
      | cons hd tl =>
        refine ⟨tl, ?_⟩
        have : hd = r := by simpa using ha
        rw [this]
    have hset : dnsCacheSet [] t0 q (r :: tl)
        = ([⟨cacheKey q, r :: tl, t0 + r.ttl⟩], some "OK") := by
      simp [dnsCacheSet, redisSetNxEx]
    constructor
    · rw [hset]
      simp [dnsCacheGet, redisGet, List.find?, decide_eq_false hkeys]
    · rw [hset]
      simp [dnsCacheGet, redisGet, List.find?, ht]

/-- C7 (witness): the amended key behavior applied at case-variant
names. -/
theorem C7_cache_key_witness :
    cacheKey ⟨"B.org", 2, 1⟩ ≠ cacheKey ⟨"b.org", 2, 1⟩ ∧
    (dnsCacheGet ((dnsCacheSet [] 3 ⟨"B.org", 2, 1⟩
        [⟨"B.org", 2, 1, 10, 4, "5.6.7.8"⟩]).1) 4 ⟨"b.org", 2, 1⟩ = none ∧
     dnsCacheGet ((dnsCacheSet [] 3 ⟨"B.org", 2, 1⟩
        [⟨"B.org", 2, 1, 10, 4, "5.6.7.8"⟩]).1) 4 ⟨"B.org", 2, 1⟩
       = some [⟨"B.org", 2, 1, 10, 4, "5.6.7.8"⟩]) :=
  ⟨C7_cache_key_amended.1 "B.org" "b.org" 2 1 (by decide),
   C7_cache_key_amended.2 ⟨"B.org", 2, 1⟩ ⟨"b.org", 2, 1⟩
     [⟨"B.org", 2, 1, 10, 4, "5.6.7.8"⟩] ⟨"B.org", 2, 1, 10, 4, "5.6.7.8"⟩ 3 4
     (by decide) (by decide) (by decide)⟩

/-! ## Transport theorems -/

/-- C9 (counterexample): a response whose header id (2) differs from
the request id (1) is not rejected with FormatError: the message
handler of `forwardResolver` returns the decoded response — carrying
the mismatched id — to the engine. -/
theorem C9_id_check_counterexample :
    forwardResolverOnMessage
      (encodePacket ⟨⟨1, 0, 0, 0, 0, 1, 0, 0, 0, 1, 0, 0, 0⟩, [⟨"a.io", 1, 1⟩], [], [], []⟩)
      (encodePacket ⟨⟨2, 1, 0, 0, 0, 1, 0, 0, 0, 1, 0, 0, 0⟩, [⟨"a.io", 1, 1⟩], [], [], []⟩)
      = .ok ⟨⟨2, 1, 0, 0, 0, 1, 0, 0, 0, 1, 0, 0, 0⟩, [⟨"a.io", 1, 1⟩], [], [], []⟩ ∧
    (⟨⟨2, 1, 0, 0, 0, 1, 0, 0, 0, 1, 0, 0, 0⟩, [⟨"a.io", 1, 1⟩], [], [], []⟩
        : DNSPacketT).header.id
      ≠ (⟨⟨1, 0, 0, 0, 0, 1, 0, 0, 0, 1, 0, 0, 0⟩, [⟨"a.io", 1, 1⟩], [], [], []⟩
        : DNSPacketT).header.id := by
  refine ⟨by decide, by decide⟩

/-- C9 (amended): the transport performs no id verification: the value
returned for an arriving datagram does not depend on the query packet
at all, and every successfully decoded response is returned to the
engine as is, whatever its id. -/
theorem C9_id_check_amended :
    (∀ (queryPacket queryPacket' msg : List Nat),
      forwardResolverOnMessage queryPacket msg
        = forwardResolverOnMessage queryPacket' msg) ∧
    (∀ (queryPacket msg : List Nat) (p : DNSPacketT),
      decodePacketF msg = .ok p → forwardResolverOnMessage queryPacket msg = .ok p) :=
  ⟨fun _ _ _ => rfl, fun _ _ _ h => h⟩

/-- C9 (witness): the amended statement applied to a concrete query
and a concrete response with a different id. -/
theorem C9_id_check_witness :
    forwardResolverOnMessage
      (encodePacket ⟨⟨1, 0, 0, 0, 0, 1, 0, 0, 0, 1, 0, 0, 0⟩, [⟨"b.io", 1, 1⟩], [], [], []⟩)
      (encodePacket ⟨⟨9, 1, 0, 0, 0, 1, 0, 0, 0, 1, 0, 0, 0⟩, [⟨"b.io", 1, 1⟩], [], [], []⟩)
      = .ok ⟨⟨9, 1, 0, 0, 0, 1, 0, 0, 0, 1, 0, 0, 0⟩, [⟨"b.io", 1, 1⟩], [], [], []⟩ :=
  C9_id_check_amended.2
    (encodePacket ⟨⟨1, 0, 0, 0, 0, 1, 0, 0, 0, 1, 0, 0, 0⟩, [⟨"b.io", 1, 1⟩], [], [], []⟩)
    (encodePacket ⟨⟨9, 1, 0, 0, 0, 1, 0, 0, 0, 1, 0, 0, 0⟩, [⟨"b.io", 1, 1⟩], [], [], []⟩)
    ⟨⟨9, 1, 0, 0, 0, 1, 0, 0, 0, 1, 0, 0, 0⟩, [⟨"b.io", 1, 1⟩], [], [], []⟩
    (by decide)

/-! ## Engine theorems -/

lemma recursiveLookupF_succ (oracle : String → DNSPacketT → Option DNSPacketT)
    (pick : List DNSAnswerT → Option DNSAnswerT)
    (pickRoot : List RootNS → Option RootNS) (fuel : Nat) (req : DNSPacketT) :
    recursiveLookupF oracle pick pickRoot (fuel + 1) req
      = match pickRoot rootNameServers with
        | none => some (catchResponse req)
        | some root =>
          match req.questions.head? with
          | none => some (catchResponse req)
          | some q =>
            match lookupLoop oracle pick pickRoot fuel req q root.ipv4 with
            | .noFuel => none
            | .threw => some (catchResponse req)
            | .ret p => some p := rfl

/-- Request packet used by the C2 refutation: a single A question. -/
def C2req : DNSPacketT :=
  ⟨⟨7, 0, 0, 0, 0, 1, 0, 0, 0, 1, 0, 0, 0⟩, [⟨"example.com", 1, 1⟩], [], [], []⟩

/-- Upstream behavior used by the C2 refutation: every server, for
every query, answers with an empty answer section and a single
additional A record of `rdlength = 4` — an endless glue delegation. -/
def C2glueResponse : DNSPacketT :=
  ⟨⟨7, 1, 0, 0, 0, 1, 1, 0, 0, 1, 0, 0, 1⟩, [⟨"example.com", 1, 1⟩], [],
   [], [⟨"ns1.example", 1, 1, 60, 4, "9.9.9.9"⟩]⟩

/-- Constant-delegation oracle for C2. -/
def C2oracle : String → DNSPacketT → Option DNSPacketT := fun _ _ => some C2glueResponse

/-- C2 (amended): `recursiveLookup` imposes no cap on loop iterations
or recursive invocations and synthesizes no `NAME_ERROR` when an
exchange budget runs out: under an upstream that endlessly delegates
with IPv4 glue, the lookup is still running after every finite number
of loop iterations. -/
theorem C2_caps_amended :
    ∀ fuel : Nat, recursiveLookupF C2oracle List.head? List.head? fuel C2req = none := by
  have hloop : ∀ (n : Nat) (ip : String) (q : DNSQuestionT),
      lookupLoop C2oracle List.head? List.head? n C2req q ip = .noFuel := by
    intro n
    induction n with
    | zero => intro ip q; rfl
    | succ m ih =>
      intro ip q
      have step : lookupLoop C2oracle List.head? List.head? (m + 1) C2req q ip
          = lookupLoop C2oracle List.head? List.head? m C2req q "9.9.9.9" := rfl
      rw [step]
      exact ih "9.9.9.9" q
  intro fuel
  cases fuel with
  | zero => rfl
  | succ n =>
    rw [recursiveLookupF_succ]
    have hroot : List.head? rootNameServers = some ⟨"a.root-servers.net", "198.41.0.4"⟩ := rfl
    rw [hroot]
    have hq : C2req.questions.head? = some ⟨"example.com", 1, 1⟩ := rfl
    rw [hq]
    dsimp only
    rw [hloop n "198.41.0.4" ⟨"example.com", 1, 1⟩]

/-- C2 (counterexample): with the endless glue delegation, after 39
loop iterations — hence 39 upstream exchanges, far beyond the claimed
cap of 16 — the lookup call has neither returned nor produced a
`NAME_ERROR` response: it is still looping. -/
theorem C2_caps_counterexample :
    recursiveLookupF C2oracle List.head? List.head? 40 C2req = none := by decide

/-- Loop form of the CNAME chase rewritten as a monadic fold over the
CNAME records, accumulating onto the initial answers. -/
lemma followCnamesF_foldlM (lk : DNSPacketT → Option DNSPacketT) (req : DNSPacketT) :
    ∀ (cs acc : List DNSAnswerT),
      followCnamesF lk req cs acc
        = cs.foldlM
            (fun acc c => (lk (cnameSubRequest req c)).map (fun res => acc ++ res.answers))
            acc := by
  intro cs
  induction cs with
  | nil => intro acc; rfl
  | cons c rest ih =>
    intro acc
    rw [List.foldlM_cons]
    cases hlk : lk (cnameSubRequest req c) with
    | none =>
      simp [followCnamesF, hlk]
    | some res =>
      simp [followCnamesF, hlk, ih]

/-- C8: when an upstream response has a nonempty answer section (and
is not an upstream NAME_ERROR), the engine returns the response built
from the upstream answers extended, for each CNAME answer — none when
the original question type is CNAME — by the answers of a recursive
lookup of the single-question sub-query (CNAME target, type CNAME,
class IN); the final header has `ancount = len(answers), aa=0, ra=1,
nscount=0, arcount=0`, the original question, and empty authority and
additional sections (this is the content of `answerResponseSpec`). -/
theorem C8_cname_chase (oracle : String → DNSPacketT → Option DNSPacketT)
    (pick : List DNSAnswerT → Option DNSAnswerT)
    (pickRoot : List RootNS → Option RootNS) (fuel : Nat)
    (req : DNSPacketT) (q : DNSQuestionT) (root : RootNS) (r : DNSPacketT)
    (hroot : pickRoot rootNameServers = some root)
    (hq : req.questions.head? = some q)
    (ho : oracle root.ipv4 req = some r)
    (hrc : r.header.rcode ≠ ResponseCode.NAME_ERROR)
    (hans : r.answers ≠ []) :
    recursiveLookupF oracle pick pickRoot (fuel + 2) req
      = (cnameChaseSpec (recursiveLookupF oracle pick pickRoot fuel) req q r).map
          (answerResponseSpec q r) := by
  show recursiveLookupF oracle pick pickRoot (fuel + 1 + 1) req = _
  rw [recursiveLookupF_succ, hroot, hq]
  dsimp only
  simp only [lookupLoop]
  rw [ho]
  dsimp only
  rw [if_neg hrc, if_pos hans, followCnamesF_foldlM]
  simp only [cnameChaseSpec]
  rcases eq_or_ne q.type RecordType.CNAME with hty | hty
  · rw [if_neg (fun hne => hne hty), if_pos hty]
    simp only [List.foldlM_nil]
    rfl
  · rw [if_pos hty, if_neg (fun heq => hty heq)]
    cases hfold : List.foldlM
        (fun acc c =>
          (recursiveLookupF oracle pick pickRoot fuel (cnameSubRequest req c)).map
            (fun res => acc ++ res.answers))
        r.answers (r.answers.filter (fun a => a.type = RecordType.CNAME)) with
    | none => rfl
    | some ans => rfl

/-- Request used to witness C8. -/
def C8req : DNSPacketT :=
  ⟨⟨5, 0, 0, 0, 0, 1, 0, 0, 0, 1, 0, 0, 0⟩, [⟨"www.ex.com", 1, 1⟩], [], [], []⟩

/-- Upstream response used to witness C8: a single CNAME answer. -/
def C8resp : DNSPacketT :=
  ⟨⟨5, 1, 0, 0, 0, 1, 1, 0, 0, 1, 1, 0, 0⟩, [⟨"www.ex.com", 1, 1⟩],
   [⟨"www.ex.com", 5, 1, 60, 6, "ex.com"⟩], [], []⟩

/-- Constant oracle used to witness C8. -/
def C8oracle : String → DNSPacketT → Option DNSPacketT := fun _ _ => some C8resp

/-- C8 (witness): the CNAME-chase theorem at a concrete upstream with
one CNAME answer. -/
theorem C8_cname_chase_witness :
    recursiveLookupF C8oracle List.head? List.head? 3 C8req
      = (cnameChaseSpec (recursiveLookupF C8oracle List.head? List.head? 1) C8req
          ⟨"www.ex.com", 1, 1⟩ C8resp).map
          (answerResponseSpec ⟨"www.ex.com", 1, 1⟩ C8resp) :=
  C8_cname_chase C8oracle List.head? List.head? 1 C8req ⟨"www.ex.com", 1, 1⟩
    ⟨"a.root-servers.net", "198.41.0.4"⟩ C8resp rfl rfl rfl (by decide) (by decide)

/-- C10: when an upstream response (not an upstream NAME_ERROR) has no
answers, a nonempty additional section, and no additional with
`rdlength = 4`, the pick from the empty filtered list yields none
(`undefined`), the subsequent field access throws, and the catch
handler turns this into a response with `qr=1, aa=0, ra=1,
rcode=NAME_ERROR`, the request questions, and empty answer, authority
and additional sections. -/
theorem C10_empty_glue (oracle : String → DNSPacketT → Option DNSPacketT)
    (pick : List DNSAnswerT → Option DNSAnswerT)
    (pickRoot : List RootNS → Option RootNS) (fuel : Nat)
    (req : DNSPacketT) (q : DNSQuestionT) (root : RootNS) (r : DNSPacketT)
    (hroot : pickRoot rootNameServers = some root)
    (hq : req.questions.head? = some q)
    (ho : oracle root.ipv4 req = some r)
    (hrc : r.header.rcode ≠ ResponseCode.NAME_ERROR)
    (hans : r.answers = [])
    (hadd : r.additionals ≠ [])
    (hglue : r.additionals.filter (fun record => record.rdlength = 4) = [])
    (hpick : pick [] = none) :
    recursiveLookupF oracle pick pickRoot (fuel + 2) req
      = some { header := { req.header with
                           aa := 0, ra := 1, qr := 1, rcode := ResponseCode.NAME_ERROR },
               questions := req.questions, answers := [], authorities := [],
               additionals := [] } := by
  show recursiveLookupF oracle pick pickRoot (fuel + 1 + 1) req = _
  rw [recursiveLookupF_succ, hroot, hq]
  dsimp only
  simp only [lookupLoop]
  rw [ho]
  dsimp only
  rw [if_neg hrc, if_neg (by simp [hans]), if_pos hadd, hglue, hpick]
  rfl

/-- Request used to witness C10. -/
def C10req : DNSPacketT :=
  ⟨⟨6, 0, 0, 0, 0, 1, 0, 0, 0, 1, 0, 0, 0⟩, [⟨"no-glue.test", 1, 1⟩], [], [], []⟩

/-- Upstream response used to witness C10: additionals present but
none with `rdlength = 4` (only a 16-octet AAAA glue record). -/
def C10resp : DNSPacketT :=
  ⟨⟨6, 1, 0, 0, 0, 1, 1, 0, 0, 1, 0, 0, 1⟩, [⟨"no-glue.test", 1, 1⟩], [], [],
   [⟨"ns.no-glue.test", 28, 1, 60, 16, "1:2:3:4:5:6:7:8"⟩]⟩

/-- Constant oracle used to witness C10. -/
def C10oracle : String → DNSPacketT → Option DNSPacketT := fun _ _ => some C10resp

/-- C10 (witness): the empty-glue theorem at a concrete upstream whose
additionals hold only a 16-octet record. -/
theorem C10_empty_glue_witness :
    recursiveLookupF C10oracle List.head? List.head? 3 C10req
      = some ⟨⟨6, 1, 0, 0, 0, 1, 1, 0, 3, 1, 0, 0, 0⟩,
              [⟨"no-glue.test", 1, 1⟩], [], [], []⟩ :=
  C10_empty_glue C10oracle List.head? List.head? 1 C10req ⟨"no-glue.test", 1, 1⟩
    ⟨"a.root-servers.net", "198.41.0.4"⟩ C10resp rfl rfl rfl
    (by decide) (by decide) (by decide) (by decide) (by decide)

end DnsResolver
